import Mathlib

/-!
Verification of the dead-DML-method analysis (py/dead_dml_methods.py).

The module scans DMLC-generated C files for line directives of the form
`#line N "file"`, accumulates per-DML-file sets of referenced line numbers,
and sweeps each DML file's method spans against those line numbers to find
methods into which no generated code points ("dead" methods).

The embedding below models the file-system-dependent pieces (reading a
file's text, pathlib's parent/join/resolve) as explicit function
parameters; everything else is translated directly from the Python source.
Paths are an arbitrary linearly ordered type (the order models Python's
sorting of paths in `sorted(c_files)`), and the quoted path strings that
occur inside artifact texts are Lean `String`s.
-/

namespace DeadDML

/-! ### Text utilities: splitting a text into physical lines -/

/-- Split a character list at newline characters.  This models running a
per-line anchored regular expression over the whole text in multi-line
mode (the Python code's `re.M` scans), and the `.splitlines` call used by
`dml_sources_from_body`.  Always returns at least one (possibly empty)
line; every element except the last was followed by a newline in the
input. -/
def splitNL : List Char → List (List Char)
  | [] => [[]]
  | c :: cs =>
    if c = '\n' then [] :: splitNL cs
    else
      match splitNL cs with
      | [] => [[c]]
      | l :: ls => (c :: l) :: ls

/-! ### The line-directive scanner (regex `^ *#line ([0-9]+) "(.*)"$`) -/

/-- Value of a decimal digit string, as computed by Python's `int`. -/
def digitsToNat (ds : List Char) : Nat :=
  ds.foldl (fun a c => a * 10 + (c.toNat - 48)) 0

/-- Parse one physical line against the anchored pattern
`^ *#line ([0-9]+) "(.*)"$` (module-level `line_directive_re`): optional
leading spaces, the literal `#line `, at least one decimal digit, a single
space, a double quote, then (greedily) anything up to a closing double
quote that must be the last character of the line.  Returns the line
number and the quoted path on success. -/
def parseLineDirective (line : List Char) : Option (Nat × String) :=
  let cs := line.dropWhile (fun c => c = ' ')
  if cs.take 6 = "#line ".data then
    let rest := cs.drop 6
    let ds := rest.takeWhile Char.isDigit
    match ds, rest.dropWhile Char.isDigit with
    | [], _ => none
    | _ :: _, ' ' :: '"' :: tl =>
      match tl.reverse with
      | '"' :: revMid => some (digitsToNat ds, String.mk revMid.reverse)
      | _ => none
    | _ :: _, _ => none
  else none

/-- All `#line` directive matches of an artifact's text, in textual order
(the Python code's `line_directive_re.finditer(c_file.read_text())`). -/
def scanLineDirectives (text : String) : List (Nat × String) :=
  (splitNL text.data).filterMap parseLineDirective

/-! ### The generated-file header scanner (`dml_sources_from_body`) -/

/-- The line-boundary characters of Python's `str.splitlines`: LF, CR,
vertical tab, form feed, the separator controls 0x1c-0x1e, NEL (0x85),
and the Unicode line/paragraph separators U+2028/U+2029.  All of them
except LF are matched by the header pattern's dot, so they can occur
inside a captured path line. -/
def isLineBreak (c : Char) : Bool :=
  c = '\n' || c = '\r' || c = '\x0b' || c = '\x0c' || c = '\x1c' ||
    c = '\x1d' || c = '\x1e' || c = '\x85' || c = '\u2028' || c = '\u2029'

/-- Collapse each CR-LF pair into a single LF, scanning left to right;
`str.splitlines` treats `"\r\n"` as one boundary, every other boundary
character as one on its own. -/
def normalizeCRLF : List Char → List Char
  | [] => []
  | [c] => [c]
  | c :: c2 :: cs2 =>
    if c = '\r' ∧ c2 = '\n' then '\n' :: normalizeCRLF cs2
    else c :: normalizeCRLF (c2 :: cs2)

/-- Split at every single line-boundary character, with no empty trailing
segment for a terminal boundary. -/
def splitBreaks : List Char → List (List Char)
  | [] => []
  | c :: cs =>
    if isLineBreak c then [] :: splitBreaks cs
    else
      match splitBreaks cs with
      | [] => [[c]]
      | l :: ls => (c :: l) :: ls

/-- Python's `str.splitlines`: collapse CR-LF pairs, then split at each
remaining boundary character. -/
def pySplitlines (cs : List Char) : List (List Char) :=
  splitBreaks (normalizeCRLF cs)

/-- Take the longest run of newline-terminated lines carrying the exact
five-character prefix `" *   "`; this is the greedy group
`((?: \*   .*\n)*)` of `c_dml_header_re`.  A final line of the text (one
not followed by a newline) is never part of the group, because the group
pattern requires a trailing newline. -/
def takeStarLines : List (List Char) → List (List Char) × List (List Char)
  | [] => ([], [])
  | [l] => ([], [l])
  | l :: l2 :: ls =>
    if l.take 5 = " *   ".data then
      ((l :: (takeStarLines (l2 :: ls)).1), (takeStarLines (l2 :: ls)).2)
    else ([], l :: l2 :: ls)

/-- Translation of `dml_sources_from_body`: anchor `c_dml_header_re` at the
very start of the body (Python's `re.match`), i.e. require the literal
four header lines, capture the greedy run of `" *   "`-prefixed
newline-terminated lines, require the closing `" */"` immediately after
the captured group, then split the captured group with `str.splitlines`
(`pySplitlines` — which also breaks at CR, VT, FF, 0x1c-0x1e, NEL and
U+2028/U+2029, characters the header pattern's dot admits inside a line)
and return each resulting segment with its first five characters removed.
A failed match (Python raises on `None.group`) is `none`. -/
def dml_sources_from_body (body : String) : Option (List String) :=
  match splitNL body.data with
  | l0 :: l1 :: l2 :: l3 :: rest =>
    if l0 = "/*".data ∧ l1 = " * Generated by dmlc, do not edit!".data ∧
        l2 = " *".data ∧ l3 = " * Source files:".data then
      match takeStarLines rest with
      | (_, []) => none
      | (starLs, l :: _) =>
        if l.take 3 = " */".data then
          some ((pySplitlines ((starLs.map (fun cs => cs ++ ['\n'])).flatten)).map
            (fun cs => String.mk (cs.drop 5)))
        else none
    else none
  | _ => none

/-! ### Method spans and their sort order -/

/-- One element of the sequence yielded by `traverse_ast`: the tuple
`(ast.site.lineno, end_lineno, name, ignored)` for a method. -/
structure MethodSpan where
  first_line : Nat
  last_line : Nat
  name : String
  ignored : Bool
deriving DecidableEq, Repr

/-- Code-point lexicographic comparison of character lists; this is how
Python compares the `name` components when sorting the span tuples. -/
def charListLt : List Char → List Char → Bool
  | [], [] => false
  | [], _ :: _ => true
  | _ :: _, [] => false
  | a :: as, b :: bs => if a < b then true else if b < a then false else charListLt as bs

/-- Python tuple comparison `(first_line, last_line, name, ignored) ≤ ...`
(with `False < True` for the boolean), used by
`sorted(method_locations(dml_file))`. -/
def spanLEb (a b : MethodSpan) : Bool :=
  if a.first_line < b.first_line then true
  else if b.first_line < a.first_line then false
  else if a.last_line < b.last_line then true
  else if b.last_line < a.last_line then false
  else if charListLt a.name.data b.name.data then true
  else if charListLt b.name.data a.name.data then false
  else !a.ignored || b.ignored

/-- Ordered insertion for the span sort. -/
def insertSpan (a : MethodSpan) : List MethodSpan → List MethodSpan
  | [] => [a]
  | b :: l => if spanLEb a b then a :: b :: l else b :: insertSpan a l

/-- The sweep's `sorted(method_locations(dml_file))`. -/
def sortSpans (l : List MethodSpan) : List MethodSpan :=
  l.foldr insertSpan []

/-! ### Marker-line sets (Python `set[int]`, read back via `sorted`) -/

/-- Sorted duplicate-free insertion; `sortedDedup` below is the canonical
form of a Python `set[int]` as observed through `sorted(...)`. -/
def insertSortedNat (x : Nat) : List Nat → List Nat
  | [] => [x]
  | y :: ys => if x < y then x :: y :: ys else if x = y then y :: ys else y :: insertSortedNat x ys

/-- The value `sorted(linemarks)` where `linemarks` is the set of all
accumulated marker lines (our accumulation keeps a raw list; Python keeps
a set, which `sorted` then lays out in increasing order without
duplicates). -/
def sortedDedup (l : List Nat) : List Nat :=
  l.foldr insertSortedNat []

/-! ### Path sorting (`sorted(c_files)`) -/

variable {Path : Type} [LinearOrder Path]

/-- Ordered insertion on paths. -/
def insertPath (x : Path) : List Path → List Path
  | [] => [x]
  | y :: ys => if x ≤ y then x :: y :: ys else y :: insertPath x ys

/-- The artifact iteration order `sorted(c_files)`. -/
def sortPaths (l : List Path) : List Path :=
  l.foldr insertPath []

/-! ### Per-artifact marker accumulation (lines 146-159 of the source) -/

/-- Append one marker line to the per-quoted-path list, creating the entry
at the end on first occurrence (Python `dict.setdefault(k, []).append(v)`
insertion-order semantics). -/
def addMark : List (String × List Nat) → String → Nat → List (String × List Nat)
  | [], k, v => [(k, [v])]
  | (k', vs) :: rest, k, v =>
    if k' = k then (k', vs ++ [v]) :: rest else (k', vs) :: addMark rest k v

/-- The per-artifact dictionary `linemarks_by_pathstr`: marker matches in
textual order, grouped by quoted path string. -/
def groupMarks (ms : List (Nat × String)) : List (String × List Nat) :=
  ms.foldl (fun acc m => addMark acc m.2 m.1) []

/-- Merge a list of marker lines into the global per-path accumulator
(Python `dict.setdefault(k, set()).update(vs)`). -/
def addMarks : List (Path × List Nat) → Path → List Nat → List (Path × List Nat)
  | [], k, vs => [(k, vs)]
  | (k', vs') :: rest, k, vs =>
    if k' = k then (k', vs' ++ vs) :: rest else (k', vs') :: addMarks rest k vs

/-- Process one generated C file (lines 148-159): scan its text for line
directives, group them by quoted path, then for each group resolve the
quoted path against the artifact (`(c_file.parent / dml_file).resolve()`,
modelled by the `resolveFrom` parameter) and merge the group's lines into
the accumulator, discarding groups whose resolved path equals the
artifact's path as supplied. -/
def scanArtifact (resolveFrom : Path → String → Path) (readText : Path → String)
    (acc : List (Path × List Nat)) (c_file : Path) : List (Path × List Nat) :=
  (groupMarks (scanLineDirectives (readText c_file))).foldl
    (fun acc g =>
      if resolveFrom c_file g.1 ≠ c_file then addMarks acc (resolveFrom c_file g.1) g.2
      else acc)
    acc

/-- The whole accumulation loop `for c_file in sorted(c_files): ...`
building `linemarks_by_path`. -/
def linemarks_by_path (resolveFrom : Path → String → Path) (readText : Path → String)
    (c_files : List Path) : List (Path × List Nat) :=
  (sortPaths c_files).foldl (scanArtifact resolveFrom readText) []

/-! ### The sweep (lines 162-173) -/

/-- The test `linemarks[i] > last_line`: with the `math.inf` sentinel an
exhausted list always compares greater. -/
def headGt (l : Nat) : List Nat → Bool
  | [] => true
  | m :: _ => decide (l < m)

/-- The per-file sweep: for each span in order, emit `(first_line, name)`
when the smallest unconsumed marker line exceeds the span's end line and
the span is not ignored, then consume all marker lines that are ≤ the
span's end line (the `while linemarks[i] <= last_line: i += 1` loop). -/
def sweepFile : List Nat → List MethodSpan → List (Nat × String)
  | _, [] => []
  | marks, sp :: rest =>
    (if headGt sp.last_line marks && !sp.ignored then [(sp.first_line, sp.name)] else [])
      ++ sweepFile (marks.dropWhile (fun m => decide (m ≤ sp.last_line))) rest

/-- The dead pairs of an unswept span list, as built by the zero-marker
branch (lines 177-181): every non-ignored span contributes
`(first_line, name)`. -/
def deadPairs (spans : List MethodSpan) : List (Nat × String) :=
  spans.filterMap (fun sp => if sp.ignored then none else some (sp.first_line, sp.name))

/-- The loop over `linemarks_by_path.items()` (lines 162-173): files in
the requested scope are swept (an entry is created in `dead` only when at
least one dead pair is appended to it), files outside the scope are
appended to `skipped`. -/
def correlate (dml_files : List Path) (method_locations : Path → List MethodSpan) :
    List (Path × List Nat) → List (Path × List (Nat × String)) × List Path
  | [] => ([], [])
  | (dml_file, marks) :: rest =>
    if dml_file ∈ dml_files then
      (let ds := sweepFile (sortedDedup marks) (sortSpans (method_locations dml_file))
       (if ds = [] then [] else [(dml_file, ds)]) ++
        (correlate dml_files method_locations rest).1,
       (correlate dml_files method_locations rest).2)
    else
      ((correlate dml_files method_locations rest).1,
       dml_file :: (correlate dml_files method_locations rest).2)

/-- The zero-marker branch (lines 177-181): every requested DML file that
received no marker at all is unconditionally assigned an entry holding
its non-ignored spans' `(first_line, name)` pairs. -/
def zeroDead (keys dml_files : List Path) (method_locations : Path → List MethodSpan) :
    List (Path × List (Nat × String)) :=
  (dml_files.filter (fun p => decide (p ∉ keys))).map
    (fun p => (p, deadPairs (method_locations p)))

/-- Translation of `find_dead_methods(c_files, dml_files)`.  The
file-system capabilities are explicit: `resolveFrom c p` models
`(c.parent / p).resolve()` and `readText` models `Path.read_text`;
`method_locations` is the per-file span list (see
`method_locations_impl`). -/
def find_dead_methods (resolveFrom : Path → String → Path) (readText : Path → String)
    (method_locations : Path → List MethodSpan) (c_files dml_files : List Path) :
    List (Path × List (Nat × String)) × List Path :=
  ((correlate dml_files method_locations
      (linemarks_by_path resolveFrom readText c_files)).1 ++
    zeroDead ((linemarks_by_path resolveFrom readText c_files).map Prod.fst)
      dml_files method_locations,
   (correlate dml_files method_locations
      (linemarks_by_path resolveFrom readText c_files)).2)

/-! ### `method_locations` (lines 112-126) -/

/-- Translation of `method_locations`: `parse_file`, `traverse_ast` and
`determine_version` involve the external DML front end (the `dml.toplevel`
and `dml.logging` modules are not part of this repository), so the
version query and the raw traversal result are abstracted as the
parameters `dv` and `spans_of`.  For a DML 1.2 file every span's ignored
flag is forced to `true` (lines 120-124); otherwise the traversal result
is returned unchanged. -/
def method_locations_impl (dv : Path → Nat × Nat) (spans_of : Path → List MethodSpan)
    (path : Path) : List MethodSpan :=
  if dv path = (1, 2) then
    (spans_of path).map (fun sp => MethodSpan.mk sp.first_line sp.last_line sp.name true)
  else spans_of path

/-! ### Dictionary lookup used to state properties of the result -/

/-- First-entry association-list lookup (the observable `dead[path]` of
the returned Python dict). -/
def getEntry {V : Type} (k : Path) : List (Path × V) → Option V
  | [] => none
  | (k', v) :: rest => if k = k' then some v else getEntry k rest

/-! ### Spec-side definitions, used only for comparison with the code -/

/-- Modelled from the spec's glossary: a method is dead when it is not
excluded and no accumulated marker line lies inside its span
(start line ≤ marker ≤ end line). -/
def specContainmentDead (marks : List Nat) (sp : MethodSpan) : Bool :=
  !sp.ignored &&
    marks.all (fun m => !(decide (sp.first_line ≤ m) && decide (m ≤ sp.last_line)))

/-- Modelled from the spec's self-reference rule: accumulate every marker
group except those whose canonicalized target equals the artifact's own
canonical path (`canon c_file`). -/
def scanArtifactSpec (resolveFrom : Path → String → Path) (canon : Path → Path)
    (readText : Path → String) (acc : List (Path × List Nat)) (c_file : Path) :
    List (Path × List Nat) :=
  ((groupMarks (scanLineDirectives (readText c_file))).filter
      (fun g => decide (resolveFrom c_file g.1 ≠ canon c_file))).foldl
    (fun acc g => addMarks acc (resolveFrom c_file g.1) g.2) acc

/-! ### Well-formed generated headers, for the round-trip property -/

/-- Concatenate lines, terminating each with a newline. -/
def unlines (ls : List (List Char)) : List Char :=
  (ls.map (fun l => l ++ ['\n'])).flatten

/-- The lines of a well-formed DMLC header listing the given source
paths: the four fixed lines, then one `" *   "`-prefixed line per path. -/
def headerLines (paths : List String) : List (List Char) :=
  ["/*".data, " * Generated by dmlc, do not edit!".data, " *".data,
    " * Source files:".data] ++ paths.map (fun p => " *   ".data ++ p.data)

/-- A well-formed generated-file header listing the given source paths,
closed by `" */"`. -/
def dmlcHeader (paths : List String) : String :=
  String.mk (unlines (headerLines paths) ++ " */".data)

/-! ### Concrete inputs for the claim witnesses and counterexamples
(paths are natural numbers) -/

/-- Artifact text with markers at lines 3 and 7 of the same DML file. -/
def c1ReadText : Nat → String := fun _ => "#line 3 \"s.dml\"\n#line 7 \"s.dml\""

/-- Every quoted path of every artifact resolves to path 1. -/
def c1ResolveFrom : Nat → String → Nat := fun _ _ => 1

/-- Method spans (1,5,"a"), (6,10,"b"), (11,20,"c"), none excluded. -/
def c1Mloc : Nat → List MethodSpan := fun _ =>
  [MethodSpan.mk 1 5 "a" false, MethodSpan.mk 6 10 "b" false, MethodSpan.mk 11 20 "c" false]

/-- Artifact text with a single marker at line 5. -/
def c2ReadText : Nat → String := fun _ => "#line 5 \"s\""

/-- A single method span (10,20,"m") that contains no marker. -/
def c2Mloc : Nat → List MethodSpan := fun _ => [MethodSpan.mk 10 20 "m" false]

/-- Artifact text consisting of one self-referencing line directive. -/
def c3ReadText : Nat → String := fun _ => "#line 4711 \"a.c\""

/-- Canonicalization that maps every path (in particular the artifact's
supplied, non-canonical path 0) to the canonical path 1. -/
def c3Canon : Nat → Nat := fun _ => 1

/-- Artifact text with no line directives at all. -/
def c4ReadText : Nat → String := fun _ => "no directives here"

/-- Two spans, one excluded. -/
def c4Mloc : Nat → List MethodSpan := fun _ =>
  [MethodSpan.mk 1 5 "a" false, MethodSpan.mk 7 9 "x" true]

/-- Three spans, the middle one excluded. -/
def c7Mloc : Nat → List MethodSpan := fun _ =>
  [MethodSpan.mk 1 5 "a" false, MethodSpan.mk 7 9 "x" true, MethodSpan.mk 11 20 "c" false]

/-- Version query declaring every file to be DML 1.2. -/
def c6Dv : Nat → Nat × Nat := fun _ => (1, 2)

/-- Raw traversal result with one non-ignored span. -/
def c6SpansOf : Nat → List MethodSpan := fun _ => [MethodSpan.mk 1 5 "a" false]

/-- Artifact text with one marker pointing at line 2. -/
def c6ReadText : Nat → String := fun _ => "#line 2 \"s\""

end DeadDML

namespace DeadDML

/-! ### Helper lemmas: basic structures -/

theorem splitNL_ne_nil (cs : List Char) : splitNL cs ≠ [] := by
  induction cs with
  | nil => simp [splitNL]
  | cons c cs ih =>
    simp only [splitNL]
    split
    · simp
    · cases h : splitNL cs with
      | nil => simp
      | cons l ls => simp

theorem mem_insertSpan {a x : MethodSpan} {l : List MethodSpan} :
    x ∈ insertSpan a l ↔ x = a ∨ x ∈ l := by
  induction l with
  | nil => simp [insertSpan]
  | cons b l ih =>
    simp only [insertSpan]
    split
    · simp [List.mem_cons]
    · simp only [List.mem_cons, ih]
      tauto

theorem mem_sortSpans {x : MethodSpan} {l : List MethodSpan} :
    x ∈ sortSpans l ↔ x ∈ l := by
  induction l with
  | nil => simp [sortSpans]
  | cons b l ih =>
    simp only [sortSpans, List.foldr_cons] at *
    rw [mem_insertSpan, ih, List.mem_cons]

variable {Path : Type} [LinearOrder Path]

theorem getEntry_mem {V : Type} {k : Path} {v : V} {l : List (Path × V)}
    (h : getEntry k l = some v) : (k, v) ∈ l := by
  induction l with
  | nil => simp [getEntry] at h
  | cons e rest ih =>
    obtain ⟨k', v'⟩ := e
    simp only [getEntry] at h
    split at h
    · rename_i heq
      cases h
      subst heq
      exact List.mem_cons_self _ _
    · exact List.mem_cons_of_mem _ (ih h)

theorem getEntry_eq_none {V : Type} {k : Path} {l : List (Path × V)} :
    getEntry k l = none ↔ k ∉ l.map Prod.fst := by
  induction l with
  | nil => simp [getEntry]
  | cons e rest ih =>
    obtain ⟨k', v'⟩ := e
    simp only [getEntry, List.map_cons, List.mem_cons]
    split
    · rename_i h
      simp [h]
    · rename_i h
      simp [ih, h]

theorem getEntry_append_of_left_none {V : Type} {k : Path} {l1 l2 : List (Path × V)}
    (h : getEntry k l1 = none) : getEntry k (l1 ++ l2) = getEntry k l2 := by
  induction l1 with
  | nil => simp
  | cons e rest ih =>
    obtain ⟨k', v'⟩ := e
    simp only [getEntry, List.cons_append] at *
    split at h
    · cases h
    · rename_i hne
      rw [if_neg hne]
      exact ih h

theorem getEntry_map_self {V : Type} {p : Path} {l : List Path} (f : Path → V)
    (hnd : l.Nodup) (hp : p ∈ l) :
    getEntry p (l.map (fun x => (x, f x))) = some (f p) := by
  induction l with
  | nil => cases hp
  | cons x rest ih =>
    simp only [List.map_cons, getEntry]
    rcases List.mem_cons.mp hp with h | h
    · rw [if_pos h, h]
    · have hne : p ≠ x := fun contra => (List.nodup_cons.mp hnd).1 (contra ▸ h)
      rw [if_neg hne]
      exact ih (List.nodup_cons.mp hnd).2 h

theorem foldl_ite_eq_foldl_filter {α β : Type} (p : β → Prop) [DecidablePred p]
    (f : α → β → α) (l : List β) (a : α) :
    l.foldl (fun acc g => if p g then f acc g else acc) a =
      (l.filter (fun g => decide (p g))).foldl f a := by
  induction l generalizing a with
  | nil => rfl
  | cons b l ih =>
    by_cases h : p b <;> simp [List.filter_cons, h, ih]

end DeadDML

namespace DeadDML

/-! ### Helper lemmas: path sorting is permutation-invariant -/

variable {Path : Type} [LinearOrder Path]

theorem insertPath_perm (x : Path) (l : List Path) : (insertPath x l).Perm (x :: l) := by
  induction l with
  | nil => exact List.Perm.refl _
  | cons y ys ih =>
    simp only [insertPath]
    split
    · exact List.Perm.refl _
    · exact (List.Perm.cons y ih).trans (List.Perm.swap x y ys)

theorem sortPaths_perm (l : List Path) : (sortPaths l).Perm l := by
  induction l with
  | nil => exact List.Perm.refl _
  | cons x xs ih =>
    simp only [sortPaths, List.foldr_cons] at *
    exact (insertPath_perm x _).trans (List.Perm.cons x ih)

theorem mem_insertPath {x y : Path} {l : List Path} :
    y ∈ insertPath x l ↔ y = x ∨ y ∈ l := by
  have h : y ∈ insertPath x l ↔ y ∈ x :: l := (insertPath_perm x l).mem_iff
  simpa [List.mem_cons] using h

theorem sorted_insertPath {x : Path} {l : List Path} (h : l.Sorted (· ≤ ·)) :
    (insertPath x l).Sorted (· ≤ ·) := by
  induction l with
  | nil => simp [insertPath]
  | cons y ys ih =>
    rw [List.sorted_cons] at h
    simp only [insertPath]
    split
    · rename_i hxy
      rw [List.sorted_cons]
      refine ⟨?_, List.sorted_cons.mpr h⟩
      intro b hb
      rcases List.mem_cons.mp hb with rfl | hb
      · exact hxy
      · exact le_trans hxy (h.1 b hb)
    · rename_i hxy
      rw [List.sorted_cons]
      refine ⟨?_, ih h.2⟩
      intro b hb
      rcases mem_insertPath.mp hb with rfl | hb
      · exact le_of_not_le hxy
      · exact h.1 b hb

theorem sortPaths_sorted (l : List Path) : (sortPaths l).Sorted (· ≤ ·) := by
  induction l with
  | nil => simp [sortPaths]
  | cons x xs ih =>
    simp only [sortPaths, List.foldr_cons] at *
    exact sorted_insertPath ih

theorem sortPaths_eq_of_perm {l1 l2 : List Path} (h : l1.Perm l2) :
    sortPaths l1 = sortPaths l2 :=
  List.eq_of_perm_of_sorted
    ((sortPaths_perm l1).trans (h.trans (sortPaths_perm l2).symm))
    (sortPaths_sorted l1) (sortPaths_sorted l2)

/-! ### Helper lemmas: the sweep -/

theorem sweepFile_all_ignored {marks : List Nat} {spans : List MethodSpan}
    (h : ∀ sp ∈ spans, sp.ignored = true) : sweepFile marks spans = [] := by
  induction spans generalizing marks with
  | nil => rfl
  | cons sp rest ih =>
    have hsp : sp.ignored = true := h sp (List.mem_cons_self _ _)
    simp only [sweepFile, hsp]
    simp only [Bool.not_true, Bool.and_false, if_false, List.nil_append]
    exact ih fun s hs => h s (List.mem_cons_of_mem _ hs)

theorem mem_sweepFile {marks : List Nat} {spans : List MethodSpan} {pr : Nat × String}
    (h : pr ∈ sweepFile marks spans) :
    ∃ sp ∈ spans, sp.ignored = false ∧ pr = (sp.first_line, sp.name) := by
  induction spans generalizing marks with
  | nil => cases h
  | cons sp rest ih =>
    simp only [sweepFile] at h
    rcases List.mem_append.mp h with h | h
    · split at h
      · rename_i hcond
        have hign : sp.ignored = false := by
          have h2 := (Bool.and_eq_true _ _).mp hcond
          simpa using h2.2
        rcases List.mem_singleton.mp h with rfl
        exact ⟨sp, List.mem_cons_self _ _, hign, rfl⟩
      · cases h
    · obtain ⟨s, hs, hign, hpr⟩ := ih h
      exact ⟨s, List.mem_cons_of_mem _ hs, hign, hpr⟩

theorem deadPairs_all_ignored {spans : List MethodSpan}
    (h : ∀ sp ∈ spans, sp.ignored = true) : deadPairs spans = [] := by
  induction spans with
  | nil => rfl
  | cons sp rest ih =>
    have hsp : sp.ignored = true := h sp (List.mem_cons_self _ _)
    simp only [deadPairs, List.filterMap_cons, hsp, if_true]
    exact ih fun s hs => h s (List.mem_cons_of_mem _ hs)

theorem mem_deadPairs {spans : List MethodSpan} {pr : Nat × String} :
    pr ∈ deadPairs spans ↔
      ∃ sp ∈ spans, sp.ignored = false ∧ pr = (sp.first_line, sp.name) := by
  simp only [deadPairs, List.mem_filterMap]
  constructor
  · rintro ⟨sp, hsp, hf⟩
    by_cases hign : sp.ignored
    · simp [hign] at hf
    · rw [if_neg hign] at hf
      cases hf
      exact ⟨sp, hsp, Bool.eq_false_iff.mpr hign, rfl⟩
  · rintro ⟨sp, hsp, hign, rfl⟩
    exact ⟨sp, hsp, by simp [hign]⟩

end DeadDML

namespace DeadDML

/-! ### Helper lemmas: the correlation loop and the zero-marker branch -/

variable {Path : Type} [LinearOrder Path]

theorem correlate_dead_entry {d : List Path} {mloc : Path → List MethodSpan}
    {lbp : List (Path × List Nat)} {q : Path} {L : List (Nat × String)}
    (h : (q, L) ∈ (correlate d mloc lbp).1) :
    ∃ marks, (q, marks) ∈ lbp ∧ q ∈ d ∧
      L = sweepFile (sortedDedup marks) (sortSpans (mloc q)) ∧ L ≠ [] := by
  induction lbp with
  | nil => cases h
  | cons e rest ih =>
    obtain ⟨df, marks⟩ := e
    simp only [correlate] at h
    split at h
    · rename_i hmem
      simp only [List.mem_append] at h
      rcases h with h | h
      · split at h
        · cases h
        · rename_i hne
          rcases List.mem_singleton.mp h with heq
          have hq : q = df := congrArg Prod.fst heq
          have hL : L = sweepFile (sortedDedup marks) (sortSpans (mloc df)) :=
            congrArg Prod.snd heq
          subst hq
          exact ⟨marks, List.mem_cons_self _ _, hmem, hL, hL ▸ hne⟩
      · obtain ⟨ms, hms, hd, hL, hne⟩ := ih h
        exact ⟨ms, List.mem_cons_of_mem _ hms, hd, hL, hne⟩
    · obtain ⟨ms, hms, hd, hL, hne⟩ := ih h
      exact ⟨ms, List.mem_cons_of_mem _ hms, hd, hL, hne⟩

theorem zeroDead_entry_mem {keys d : List Path} {mloc : Path → List MethodSpan}
    {q : Path} {L : List (Nat × String)} (h : (q, L) ∈ zeroDead keys d mloc) :
    q ∈ d ∧ q ∉ keys ∧ L = deadPairs (mloc q) := by
  simp only [zeroDead, List.mem_map] at h
  obtain ⟨p, hp, heq⟩ := h
  have hq : q = p := (congrArg Prod.fst heq).symm
  subst hq
  have hL : L = deadPairs (mloc q) := (congrArg Prod.snd heq).symm
  have hmem := List.mem_filter.mp hp
  exact ⟨hmem.1, by simpa using hmem.2, hL⟩

theorem getEntry_correlate_none {d : List Path} {mloc : Path → List MethodSpan}
    {lbp : List (Path × List Nat)} {p : Path} (hab : p ∉ lbp.map Prod.fst) :
    getEntry p (correlate d mloc lbp).1 = none := by
  cases h : getEntry p (correlate d mloc lbp).1 with
  | none => rfl
  | some L =>
    obtain ⟨marks, hmarks, -, -, -⟩ := correlate_dead_entry (getEntry_mem h)
    exact absurd (List.mem_map.mpr ⟨(p, marks), hmarks, rfl⟩) hab

theorem getEntry_zeroDead {keys d : List Path} {mloc : Path → List MethodSpan} {p : Path}
    (hnd : d.Nodup) (hp : p ∈ d) (hk : p ∉ keys) :
    getEntry p (zeroDead keys d mloc) = some (deadPairs (mloc p)) := by
  unfold zeroDead
  have hmem : p ∈ d.filter (fun x => decide (x ∉ keys)) :=
    List.mem_filter.mpr ⟨hp, by simpa using hk⟩
  exact getEntry_map_self (fun x => deadPairs (mloc x)) (hnd.filter _) hmem

/-- Core fact shared by two claims: a requested file that is absent from
the marker mapping gets exactly the zero-marker entry in the result. -/
theorem getEntry_find_of_no_marks (resolveFrom : Path → String → Path)
    (readText : Path → String) (mloc : Path → List MethodSpan)
    (c_files d : List Path) (p : Path) (hnd : d.Nodup) (hp : p ∈ d)
    (hab : p ∉ (linemarks_by_path resolveFrom readText c_files).map Prod.fst) :
    getEntry p (find_dead_methods resolveFrom readText mloc c_files d).1 =
      some (deadPairs (mloc p)) := by
  unfold find_dead_methods
  rw [getEntry_append_of_left_none (getEntry_correlate_none hab)]
  exact getEntry_zeroDead hnd hp hab

end DeadDML

namespace DeadDML

/-! ### Helper lemmas: the sweep against the containment reading -/

theorem headGt_true_of_sorted {l : Nat} {marks : List Nat}
    (hm : marks.Pairwise (· ≤ ·)) (h : headGt l marks = true) :
    ∀ m ∈ marks, l < m := by
  cases marks with
  | nil => intro m hm'; cases hm'
  | cons m0 ms =>
    have h0 : l < m0 := by simpa [headGt] using h
    intro m hmem
    rcases List.mem_cons.mp hmem with rfl | hmem
    · exact h0
    · exact lt_of_lt_of_le h0 ((List.pairwise_cons.mp hm).1 m hmem)

theorem headGt_false_head {l : Nat} {marks : List Nat}
    (h : headGt l marks = false) :
    ∃ m0 ms, marks = m0 :: ms ∧ m0 ≤ l := by
  cases marks with
  | nil => simp [headGt] at h
  | cons m0 ms =>
    refine ⟨m0, ms, rfl, ?_⟩
    have := of_decide_eq_false h
    omega

theorem dropWhile_sorted_eq_filter {l : Nat} {marks : List Nat}
    (hm : marks.Pairwise (· ≤ ·)) :
    marks.dropWhile (fun m => decide (m ≤ l)) =
      marks.filter (fun m => decide (l < m)) := by
  induction marks with
  | nil => rfl
  | cons m0 ms ih =>
    have hms := (List.pairwise_cons.mp hm).2
    by_cases h0 : m0 ≤ l
    · have hlt : ¬ l < m0 := by omega
      simp only [List.dropWhile_cons, List.filter_cons]
      simp [h0, hlt, ih hms]
    · have hlt : l < m0 := by omega
      simp only [List.dropWhile_cons, List.filter_cons]
      simp only [decide_eq_true_eq]
      rw [if_neg h0, if_pos hlt]
      rw [List.filter_eq_self.mpr]
      intro m hmem
      have h1 := (List.pairwise_cons.mp hm).1 m hmem
      simp only [decide_eq_true_eq]
      omega

theorem all_filter_of_removed_sat {p q : Nat → Bool} {marks : List Nat}
    (h : ∀ m ∈ marks, p m = false → q m = true) :
    (marks.filter p).all q = marks.all q := by
  induction marks with
  | nil => rfl
  | cons m0 ms ih =>
    have hms : ∀ m ∈ ms, p m = false → q m = true :=
      fun m hm => h m (List.mem_cons_of_mem _ hm)
    by_cases h0 : p m0 = true
    · simp only [List.filter_cons, h0, if_true, List.all_cons, ih hms]
    · have hq : q m0 = true := h m0 (List.mem_cons_self _ _) (Bool.eq_false_iff.mpr h0)
      simp only [List.filter_cons]
      rw [if_neg h0]
      simp [List.all_cons, ih hms, hq]

theorem specContainmentDead_filter {l : Nat} {marks : List Nat} {sp : MethodSpan}
    (h : l < sp.first_line) :
    specContainmentDead (marks.filter (fun m => decide (l < m))) sp =
      specContainmentDead marks sp := by
  unfold specContainmentDead
  congr 1
  apply all_filter_of_removed_sat
  intro m _ hp
  have hm : ¬ l < m := of_decide_eq_false hp
  have : ¬ sp.first_line ≤ m := by omega
  simp [this]

end DeadDML

namespace DeadDML

/-- C2 (amended): over configurations the sweep is designed for — marker
lines sorted ascending, method spans listed in ascending disjoint order
(each span's end line below the next span's start line, start ≤ end), and
every marker line falling inside some span — the sweep's liveness rule
("dead iff the smallest unconsumed marker line exceeds the span's end
line") coincides exactly with the glossary's span-containment definition
of dead ("not excluded and no marker line inside the span"): the sweep
output is precisely the containment-dead spans' (start line, name) pairs
in order.  (Without the containment hypothesis the two disagree: see the
counterexample, where a marker line before a span's start makes the sweep
classify the span live.) -/
theorem sweep_matches_containment (marks : List Nat) (spans : List MethodSpan)
    (hm : marks.Pairwise (· ≤ ·))
    (hse : ∀ sp ∈ spans, sp.first_line ≤ sp.last_line)
    (hdisj : spans.Pairwise (fun a b => a.last_line < b.first_line))
    (hcov : ∀ m ∈ marks, ∃ sp ∈ spans, sp.first_line ≤ m ∧ m ≤ sp.last_line) :
    sweepFile marks spans =
      (spans.filter (fun sp => specContainmentDead marks sp)).map
        (fun sp => (sp.first_line, sp.name)) := by
  induction spans generalizing marks with
  | nil => simp [sweepFile]
  | cons sp rest ih =>
    have hd1 : ∀ b ∈ rest, sp.last_line < b.first_line := (List.pairwise_cons.mp hdisj).1
    have hd2 : rest.Pairwise (fun a b => a.last_line < b.first_line) :=
      (List.pairwise_cons.mp hdisj).2
    have hse' : ∀ b ∈ rest, b.first_line ≤ b.last_line :=
      fun b hb => hse b (List.mem_cons_of_mem _ hb)
    cases hH : headGt sp.last_line marks with
    | false =>
      obtain ⟨m0, ms, rfl, hm0⟩ := headGt_false_head hH
      have hin : sp.first_line ≤ m0 := by
        obtain ⟨spc, hspc, h1, h2⟩ := hcov m0 (List.mem_cons_self _ _)
        rcases List.mem_cons.mp hspc with rfl | hmem
        · exact h1
        · have := hd1 spc hmem
          omega
      have hq : (!(decide (sp.first_line ≤ m0) && decide (m0 ≤ sp.last_line))) = false := by
        simp [hin, hm0]
      have hsd : specContainmentDead (m0 :: ms) sp = false := by
        unfold specContainmentDead
        simp only [List.all_cons, hq, Bool.false_and, Bool.and_false]
      have hm' : ((m0 :: ms).dropWhile (fun m => decide (m ≤ sp.last_line))).Pairwise
          (fun a b => a ≤ b) := by
        rw [dropWhile_sorted_eq_filter hm]
        exact hm.sublist (List.filter_sublist _)
      have hcov' : ∀ m ∈ (m0 :: ms).dropWhile (fun m => decide (m ≤ sp.last_line)),
          ∃ sp' ∈ rest, sp'.first_line ≤ m ∧ m ≤ sp'.last_line := by
        rw [dropWhile_sorted_eq_filter hm]
        intro m hmem
        have hmem' := List.mem_filter.mp hmem
        have hgt : sp.last_line < m := by simpa using hmem'.2
        obtain ⟨spc, hspc, h1, h2⟩ := hcov m hmem'.1
        rcases List.mem_cons.mp hspc with rfl | hspcr
        · omega
        · exact ⟨spc, hspcr, h1, h2⟩
      have hrec := ih _ hm' hse' hd2 hcov'
      have hfc : rest.filter
            (fun sp' => specContainmentDead
              ((m0 :: ms).dropWhile (fun m => decide (m ≤ sp.last_line))) sp') =
          rest.filter (fun sp' => specContainmentDead (m0 :: ms) sp') := by
        apply List.filter_congr
        intro sp' hsp'
        rw [dropWhile_sorted_eq_filter hm]
        exact specContainmentDead_filter (hd1 sp' hsp')
      simp only [sweepFile, hH, Bool.false_and, if_false, List.nil_append]
      rw [hrec, hfc, List.filter_cons, hsd]
      simp
    | true =>
      have hall : ∀ m ∈ marks, sp.last_line < m := headGt_true_of_sorted hm hH
      have hdrop : marks.dropWhile (fun m => decide (m ≤ sp.last_line)) = marks := by
        rw [dropWhile_sorted_eq_filter hm]
        exact List.filter_eq_self.mpr fun m hm' => by
          simpa using hall m hm'
      have hallq : marks.all
          (fun m => !(decide (sp.first_line ≤ m) && decide (m ≤ sp.last_line))) = true := by
        rw [List.all_eq_true]
        intro m hm'
        have := hall m hm'
        have hle : ¬ m ≤ sp.last_line := by omega
        simp [hle]
      have hsd : specContainmentDead marks sp = !sp.ignored := by
        unfold specContainmentDead
        rw [hallq, Bool.and_true]
      have hcov' : ∀ m ∈ marks, ∃ sp' ∈ rest, sp'.first_line ≤ m ∧ m ≤ sp'.last_line := by
        intro m hm'
        obtain ⟨spc, hspc, h1, h2⟩ := hcov m hm'
        rcases List.mem_cons.mp hspc with rfl | hspcr
        · have := hall m hm'
          omega
        · exact ⟨spc, hspcr, h1, h2⟩
      have hrec := ih marks hm hse' hd2 hcov'
      simp only [sweepFile, hH, Bool.true_and, hdrop]
      rw [hrec, List.filter_cons, hsd]
      cases hign : sp.ignored
      · simp
      · simp

end DeadDML

namespace DeadDML

/-! ### Helper lemmas: line splitting of well-formed headers -/

theorem splitNL_append_newline {xs ys : List Char} (h : ∀ c ∈ xs, c ≠ '\n') :
    splitNL (xs ++ '\n' :: ys) = xs :: splitNL ys := by
  induction xs with
  | nil => simp [splitNL]
  | cons c cs ih =>
    have hc : c ≠ '\n' := h c (List.mem_cons_self _ _)
    have hcs : ∀ x ∈ cs, x ≠ '\n' := fun x hx => h x (List.mem_cons_of_mem _ hx)
    simp only [List.cons_append, splitNL, if_neg hc, List.append_eq, ih hcs]

theorem splitNL_unlines_append {ls : List (List Char)} {r : List Char}
    (h : ∀ l ∈ ls, ∀ c ∈ l, c ≠ '\n') :
    splitNL (unlines ls ++ r) = ls ++ splitNL r := by
  induction ls with
  | nil => simp [unlines]
  | cons l ls ih =>
    have hl : ∀ c ∈ l, c ≠ '\n' := h l (List.mem_cons_self _ _)
    have hls : ∀ x ∈ ls, ∀ c ∈ x, c ≠ '\n' := fun x hx => h x (List.mem_cons_of_mem _ hx)
    have : unlines (l :: ls) ++ r = l ++ '\n' :: (unlines ls ++ r) := by
      simp [unlines, List.append_assoc]
    rw [this, splitNL_append_newline hl, ih hls]
    rfl

theorem splitNL_head_extends (xs r : List Char) (h : ∀ c ∈ xs, c ≠ '\n') :
    ∃ ys tl, splitNL (xs ++ r) = (xs ++ ys) :: tl := by
  induction xs with
  | nil =>
    cases hr : splitNL r with
    | nil => exact absurd hr (splitNL_ne_nil r)
    | cons y tl => exact ⟨y, tl, by simpa using hr⟩
  | cons c cs ih =>
    have hc : c ≠ '\n' := h c (List.mem_cons_self _ _)
    obtain ⟨ys, tl, hys⟩ := ih fun x hx => h x (List.mem_cons_of_mem _ hx)
    refine ⟨ys, tl, ?_⟩
    simp only [List.cons_append, splitNL, if_neg hc, List.append_eq, hys]

theorem takeStarLines_not_star {l : List Char} {ls : List (List Char)}
    (h : l.take 5 ≠ " *   ".data) : takeStarLines (l :: ls) = ([], l :: ls) := by
  cases ls with
  | nil => rfl
  | cons l2 ls' => rw [takeStarLines, if_neg h]

theorem take_five_star {p : List Char} : (" *   ".data ++ p).take 5 = " *   ".data := by
  rfl

theorem takeStarLines_pathlines (paths : List String) (hd : List Char)
    (t : List (List Char)) (hh : hd.take 3 = " */".data) :
    takeStarLines ((paths.map (fun p => " *   ".data ++ p.data)) ++ hd :: t) =
      (paths.map (fun p => " *   ".data ++ p.data), hd :: t) := by
  induction paths with
  | nil =>
    apply takeStarLines_not_star
    intro contra
    have h3 : hd.take 3 = (" *   ".data : List Char).take 3 := by
      rw [← contra, List.take_take]
      norm_num
    rw [hh] at h3
    exact absurd h3 (by decide)
  | cons p ps ih =>
    rw [List.map_cons, List.cons_append]
    cases hrest : (ps.map (fun p => " *   ".data ++ p.data)) ++ hd :: t with
    | nil => exact absurd hrest (by simp)
    | cons l2 ls' =>
      rw [takeStarLines, if_pos take_five_star, ← hrest, ih]

end DeadDML

namespace DeadDML

/-- The closing line of a well-formed header starts with the three
characters of the comment terminator, whatever follows on that line. -/
theorem take_three_close {ys : List Char} : (" */".data ++ ys).take 3 = " */".data := by
  rfl

theorem normalizeCRLF_cons_of_not_cr {c : Char} {cs : List Char} (h : c ≠ '\r') :
    normalizeCRLF (c :: cs) = c :: normalizeCRLF cs := by
  cases cs with
  | nil => rfl
  | cons c2 cs2 =>
    rw [normalizeCRLF]
    rw [if_neg fun contra => h contra.1]

theorem normalizeCRLF_append_newline {xs r : List Char}
    (h : ∀ c ∈ xs, isLineBreak c = false) :
    normalizeCRLF (xs ++ '\n' :: r) = xs ++ '\n' :: normalizeCRLF r := by
  induction xs with
  | nil => exact normalizeCRLF_cons_of_not_cr (by decide)
  | cons c cs ih =>
    have hc : c ≠ '\r' := by
      intro contra
      subst contra
      simpa [isLineBreak] using h '\r' (List.mem_cons_self _ _)
    rw [List.cons_append, normalizeCRLF_cons_of_not_cr hc,
      ih fun x hx => h x (List.mem_cons_of_mem _ hx), List.cons_append]

theorem splitBreaks_append_newline {xs ys : List Char}
    (h : ∀ c ∈ xs, isLineBreak c = false) :
    splitBreaks (xs ++ '\n' :: ys) = xs :: splitBreaks ys := by
  induction xs with
  | nil =>
    rw [List.nil_append, splitBreaks, if_pos (by decide)]
  | cons c cs ih =>
    have hc : isLineBreak c = false := h c (List.mem_cons_self _ _)
    rw [List.cons_append, splitBreaks, if_neg (by simp [hc]),
      ih fun x hx => h x (List.mem_cons_of_mem _ hx)]

theorem pySplitlines_unlines {ls : List (List Char)}
    (h : ∀ l ∈ ls, ∀ c ∈ l, isLineBreak c = false) :
    pySplitlines ((ls.map (fun l => l ++ ['\n'])).flatten) = ls := by
  induction ls with
  | nil => rfl
  | cons l ls ih =>
    have hl := h l (List.mem_cons_self _ _)
    have hls := fun x hx => h x (List.mem_cons_of_mem _ hx)
    rw [List.map_cons, List.flatten_cons, List.append_assoc, List.singleton_append]
    show splitBreaks
        (normalizeCRLF (l ++ '\n' :: (ls.map (fun l => l ++ ['\n'])).flatten)) = l :: ls
    rw [normalizeCRLF_append_newline hl, splitBreaks_append_newline hl]
    exact congrArg (fun x => l :: x) (ih hls)

/-- C8 (amended): round-trip property of the provenance extractor.  For
every list of paths free of line-boundary characters (the characters at
which Python's `str.splitlines` breaks: LF, CR, VT, FF, 0x1c-0x1e, NEL,
U+2028, U+2029) and every continuation of the artifact text after the
closing `" */"`, `dml_sources_from_body` applied to the well-formed
header block returns exactly the listed paths, in order, byte for byte.
(For a listed path containing one of the non-LF boundary characters the
original claim fails — see the counterexample.) -/
theorem dml_sources_from_body_roundtrip (paths : List String) (tl : String)
    (h : ∀ p ∈ paths, ∀ c ∈ p.data, isLineBreak c = false) :
    dml_sources_from_body (dmlcHeader paths ++ tl) = some paths := by
  have hnl : ∀ p ∈ paths, '\n' ∉ p.data := by
    intro p hp contra
    exact absurd (h p hp '\n' contra) (by decide)
  have hlines : ∀ l ∈ headerLines paths, ∀ c ∈ l, c ≠ '\n' := by
    intro l hl
    simp only [headerLines, List.mem_append, List.mem_cons, List.not_mem_nil,
      or_false, List.mem_map] at hl
    rcases hl with ((rfl | rfl | rfl | rfl) | ⟨p, hp, rfl⟩)
    · decide
    · decide
    · decide
    · decide
    · intro c hc
      rcases List.mem_append.mp hc with hc | hc
      · intro contra
        subst contra
        exact absurd hc (by decide)
      · intro contra
        exact hnl p hp (contra ▸ hc)
  have hstar : ∀ l ∈ paths.map (fun p : String => " *   ".data ++ p.data),
      ∀ c ∈ l, isLineBreak c = false := by
    intro l hl c hc
    obtain ⟨p, hp, rfl⟩ := List.mem_map.mp hl
    rcases List.mem_append.mp hc with hc | hc
    · have h5 : (" *   ".data : List Char) = [' ', '*', ' ', ' ', ' '] := rfl
      rw [h5] at hc
      simp only [List.mem_cons, List.not_mem_nil, or_false] at hc
      rcases hc with rfl | rfl | rfl | rfl | rfl <;> decide
    · exact h p hp c hc
  have hdata : (dmlcHeader paths ++ tl).data =
      unlines (headerLines paths) ++ (" */".data ++ tl.data) := by
    rw [String.data_append]
    show (unlines (headerLines paths) ++ " */".data) ++ tl.data = _
    rw [List.append_assoc]
  obtain ⟨ys, t, hsplit2⟩ :=
    splitNL_head_extends " */".data tl.data (by decide)
  have hsplit : splitNL (dmlcHeader paths ++ tl).data =
      "/*".data :: " * Generated by dmlc, do not edit!".data :: " *".data ::
        " * Source files:".data ::
        (paths.map (fun p => " *   ".data ++ p.data) ++ (" */".data ++ ys) :: t) := by
    rw [hdata, splitNL_unlines_append hlines, hsplit2]
    simp [headerLines]
  have hcomp : (fun cs => String.mk (cs.drop 5)) ∘
      (fun p : String => " *   ".data ++ p.data) = id := by
    funext p
    rfl
  simp only [dml_sources_from_body, hsplit]
  rw [takeStarLines_pathlines paths _ t take_three_close]
  simp only [eq_self_iff_true, and_self, reduceIte]
  rw [if_pos take_three_close, pySplitlines_unlines hstar]
  simp only [List.map_map, hcomp, List.map_id]

/-- C8 counterexample: `str.splitlines` splits the captured header group
at carriage returns too (and at the other non-LF boundary characters the
header pattern's dot admits inside a path line), so a well-formed header
listing the single path "a\rb" — one regex path line, satisfying the
original claim's shape — does not round-trip byte for byte: the extractor
returns the two strings "a" and "" instead of the listed path. -/
theorem dml_sources_splitlines_counterexample :
    dml_sources_from_body (dmlcHeader ["a\rb"]) = some ["a", ""] ∧
    some ["a", ""] ≠ some ["a\rb"] := by
  decide

end DeadDML

namespace DeadDML

/-! ### Claim theorems -/

/-- C1: sweep correctness.  For a source file (path 1) whose method spans
are (1,5,"a",false), (6,10,"b",false), (11,20,"c",false) and whose
accumulated marker line set is {3, 7}, `find_dead_methods` classifies "a"
and "b" as live and "c" as dead: the result is exactly the dead mapping
[(1, [(11, "c")])] with no skipped files. -/
theorem find_dead_methods_sweep_example :
    find_dead_methods c1ResolveFrom c1ReadText c1Mloc [0] [1] =
      ([(1, [(11, "c")])], []) := by
  decide

/-- C2 counterexample: the glossary's span-containment notion of dead and
the sweep's rule do not coincide when a marker line falls before a span's
start line.  File 1 accumulates marker set {5}; its only span
(10,20,"m",false) contains no marker and is not excluded, so the
containment definition classifies it dead, yet `find_dead_methods`
reports nothing (the sweep treats the stray marker 5 ≤ 20 as liveness
evidence for the span). -/
theorem sweep_containment_counterexample :
    specContainmentDead [5] (MethodSpan.mk 10 20 "m" false) = true ∧
    linemarks_by_path c1ResolveFrom c2ReadText [0] = [(1, [5])] ∧
    find_dead_methods c1ResolveFrom c2ReadText c2Mloc [0] [1] = ([], []) := by
  decide

/-- C2 witness: the amended sweep-containment equivalence evaluated at
marker lines {3, 7} and the three spans of the sweep-correctness
example. -/
theorem sweep_matches_containment_witness :
    ([3, 7] : List Nat).Pairwise (· ≤ ·) ∧
    sweepFile [3, 7]
        [MethodSpan.mk 1 5 "a" false, MethodSpan.mk 6 10 "b" false,
          MethodSpan.mk 11 20 "c" false] =
      (([MethodSpan.mk 1 5 "a" false, MethodSpan.mk 6 10 "b" false,
          MethodSpan.mk 11 20 "c" false].filter
            (fun sp => specContainmentDead [3, 7] sp)).map
        (fun sp => (sp.first_line, sp.name))) :=
  ⟨by decide,
    sweep_matches_containment [3, 7] _ (by decide) (by decide) (by decide) (by decide)⟩

/-- C3 counterexample: the artifact is supplied under the non-canonical
path 0, whose canonical form is `c3Canon 0 = 1`.  Its only marker's
quoted path resolves (against the artifact's directory, canonicalized) to
path 1 — the artifact's own canonical path, a self-reference in the
claim's sense — yet the marker is counted: the accumulated mapping gains
the entry (1, [4711]), because the code compares the resolved target with
the artifact's path as supplied, not with its canonical form. -/
theorem self_reference_counterexample :
    c3Canon 0 ≠ 0 ∧ c1ResolveFrom 0 "a.c" = c3Canon 0 ∧
    scanLineDirectives (c3ReadText 0) = [(4711, "a.c")] ∧
    linemarks_by_path c1ResolveFrom c3ReadText [0] = [(1, [4711])] := by
  decide

variable {Path : Type} [LinearOrder Path]

/-- C3 (amended): when the artifact path supplied to the analysis is
already canonical (`canon c_file = c_file`), a marker whose quoted path
resolves and canonicalizes to the artifact's canonical path is never
accumulated: processing the artifact is exactly processing only the
marker groups whose resolved target differs from the artifact's canonical
path, for all artifact contents. -/
theorem self_reference_exclusion (resolveFrom : Path → String → Path)
    (canon : Path → Path) (readText : Path → String) (acc : List (Path × List Nat))
    (c_file : Path) (hcanon : canon c_file = c_file) :
    scanArtifact resolveFrom readText acc c_file =
      scanArtifactSpec resolveFrom canon readText acc c_file := by
  unfold scanArtifact scanArtifactSpec
  rw [hcanon]
  exact foldl_ite_eq_foldl_filter
    (fun (g : String × List Nat) => resolveFrom c_file g.1 ≠ c_file)
    (fun acc (g : String × List Nat) => addMarks acc (resolveFrom c_file g.1) g.2) _ acc

/-- C3 witness: the amended self-reference rule at an artifact whose
supplied path 1 is canonical; its self-referencing marker is discarded by
both sides. -/
theorem self_reference_exclusion_witness :
    c3Canon 1 = 1 ∧
    scanArtifact c1ResolveFrom c3ReadText [] 1 =
      scanArtifactSpec c1ResolveFrom c3Canon c3ReadText [] 1 :=
  ⟨rfl, self_reference_exclusion c1ResolveFrom c3Canon c3ReadText [] 1 rfl⟩

/-- C4: zero-marker totality.  A requested source file absent from the
marker mapping gets an entry that contains the (start line, name) pair of
every non-excluded method span and consists only of such pairs (no
excluded span is reported). -/
theorem zero_marker_totality (resolveFrom : Path → String → Path)
    (readText : Path → String) (mloc : Path → List MethodSpan) (c_files d : List Path)
    (p : Path) (hnd : d.Nodup) (hp : p ∈ d)
    (hab : p ∉ (linemarks_by_path resolveFrom readText c_files).map Prod.fst) :
    ∃ L, getEntry p (find_dead_methods resolveFrom readText mloc c_files d).1 = some L ∧
      (∀ sp ∈ mloc p, sp.ignored = false → (sp.first_line, sp.name) ∈ L) ∧
      (∀ pr ∈ L, ∃ sp ∈ mloc p, sp.ignored = false ∧ pr = (sp.first_line, sp.name)) := by
  refine ⟨deadPairs (mloc p),
    getEntry_find_of_no_marks resolveFrom readText mloc c_files d p hnd hp hab, ?_, ?_⟩
  · intro sp hsp hign
    exact mem_deadPairs.mpr ⟨sp, hsp, hign, rfl⟩
  · intro pr hpr
    exact mem_deadPairs.mp hpr

/-- C4 witness: the zero-marker branch at an artifact with no directives
and the two-span file 1 (one span excluded). -/
theorem zero_marker_totality_witness :
    ([1] : List Nat).Nodup ∧
    (∃ L, getEntry 1 (find_dead_methods c1ResolveFrom c4ReadText c4Mloc [0] [1]).1 =
        some L ∧
      (∀ sp ∈ c4Mloc 1, sp.ignored = false → (sp.first_line, sp.name) ∈ L) ∧
      (∀ pr ∈ L, ∃ sp ∈ c4Mloc 1, sp.ignored = false ∧ pr = (sp.first_line, sp.name))) :=
  ⟨by decide,
    zero_marker_totality c1ResolveFrom c4ReadText c4Mloc [0] [1] 1
      (by decide) (by decide) (by decide)⟩

/-- C5: boundary.  During the sweep, a non-excluded span whose end line
exactly equals the smallest unconsumed marker line is classified live:
the span contributes nothing, and the sweep proceeds to the remaining
spans after consuming the boundary marker (the comparison is marker ≤ end
line, not strictly less). -/
theorem boundary_marker_live (marks : List Nat) (sp : MethodSpan)
    (rest : List MethodSpan) (hhead : marks.head? = some sp.last_line)
    (hign : sp.ignored = false) :
    sweepFile marks (sp :: rest) =
      sweepFile (marks.dropWhile (fun m => decide (m ≤ sp.last_line))) rest := by
  cases marks with
  | nil => cases hhead
  | cons m ms =>
    have hm : m = sp.last_line := by simpa using hhead
    subst hm
    simp [sweepFile, headGt]

/-- C5 witness: a span ending at line 10 with smallest unconsumed marker
line 10 emits no dead pair. -/
theorem boundary_marker_live_witness :
    ([10] : List Nat).head? = some ((MethodSpan.mk 4 10 "m" false).last_line) ∧
    (MethodSpan.mk 4 10 "m" false).ignored = false ∧
    sweepFile [10] [MethodSpan.mk 4 10 "m" false] =
      sweepFile
        ([10].dropWhile (fun m => decide (m ≤ (MethodSpan.mk 4 10 "m" false).last_line)))
        [] :=
  ⟨rfl, rfl, boundary_marker_live [10] (MethodSpan.mk 4 10 "m" false) [] rfl rfl⟩

end DeadDML

namespace DeadDML

variable {Path : Type} [LinearOrder Path]

/-- C6: dialect degradation.  For a file whose declared language version
is DML 1.2, `method_locations` forces the excluded flag of every method
span to true, and consequently the dead-method report for that file is
always empty (the file either has no entry in the dead mapping or an
entry holding the empty list), regardless of marker content. -/
theorem dml12_always_excluded (dv : Path → Nat × Nat) (spans_of : Path → List MethodSpan)
    (resolveFrom : Path → String → Path) (readText : Path → String)
    (c_files d : List Path) (p : Path) (hv : dv p = (1, 2)) :
    (∀ sp ∈ method_locations_impl dv spans_of p, sp.ignored = true) ∧
    (getEntry p (find_dead_methods resolveFrom readText
        (method_locations_impl dv spans_of) c_files d).1).getD [] = [] := by
  have hall : ∀ sp ∈ method_locations_impl dv spans_of p, sp.ignored = true := by
    intro sp hsp
    unfold method_locations_impl at hsp
    rw [if_pos hv] at hsp
    obtain ⟨sp', -, rfl⟩ := List.mem_map.mp hsp
    rfl
  refine ⟨hall, ?_⟩
  cases hent : getEntry p (find_dead_methods resolveFrom readText
      (method_locations_impl dv spans_of) c_files d).1 with
  | none => rfl
  | some L =>
    have hmem := getEntry_mem hent
    simp only [find_dead_methods] at hmem
    rcases List.mem_append.mp hmem with hmem | hmem
    · obtain ⟨marks, -, -, hL, hne⟩ := correlate_dead_entry hmem
      refine absurd ?_ hne
      rw [hL]
      apply sweepFile_all_ignored
      intro sp hsp
      exact hall sp (mem_sortSpans.mp hsp)
    · obtain ⟨-, -, hL⟩ := zeroDead_entry_mem hmem
      simp [hL, deadPairs_all_ignored hall]

/-- C6 witness: a DML 1.2 file (path 1) with one method span and one
marker pointing into it still produces an empty report for the file. -/
theorem dml12_always_excluded_witness :
    c6Dv 1 = (1, 2) ∧
    ((∀ sp ∈ method_locations_impl c6Dv c6SpansOf 1, sp.ignored = true) ∧
      (getEntry 1 (find_dead_methods c1ResolveFrom c6ReadText
          (method_locations_impl c6Dv c6SpansOf) [0] [1]).1).getD [] = []) :=
  ⟨rfl,
    dml12_always_excluded c6Dv c6SpansOf c1ResolveFrom c6ReadText [0] [1] 1 rfl⟩

/-- C7: exclusion respected.  For every input, every pair appearing in
any entry of the dead mapping originates from a non-excluded span of that
entry's file: a method span whose excluded flag is true is never reported
dead, in either the sweep branch or the zero-marker branch. -/
theorem excluded_never_reported (resolveFrom : Path → String → Path)
    (readText : Path → String) (mloc : Path → List MethodSpan) (c_files d : List Path)
    (p : Path) (L : List (Nat × String)) (pr : Nat × String)
    (hmem : (p, L) ∈ (find_dead_methods resolveFrom readText mloc c_files d).1)
    (hpr : pr ∈ L) :
    ∃ sp ∈ mloc p, sp.ignored = false ∧ pr = (sp.first_line, sp.name) := by
  simp only [find_dead_methods] at hmem
  rcases List.mem_append.mp hmem with hmem | hmem
  · obtain ⟨marks, -, -, hL, -⟩ := correlate_dead_entry hmem
    subst hL
    obtain ⟨sp, hsp, hign, hpr'⟩ := mem_sweepFile hpr
    exact ⟨sp, mem_sortSpans.mp hsp, hign, hpr'⟩
  · obtain ⟨-, -, hL⟩ := zeroDead_entry_mem hmem
    subst hL
    exact mem_deadPairs.mp hpr

/-- C7 witness: on a file with an excluded span (7,9,"x",true) between
two live-checked spans, the only reported pair (11, "c") originates from
the non-excluded span (11,20,"c",false). -/
theorem excluded_never_reported_witness :
    (((1 : Nat), [((11 : Nat), "c")]) ∈
        (find_dead_methods c1ResolveFrom c1ReadText c7Mloc [0] [1]).1) ∧
    ∃ sp ∈ c7Mloc 1, sp.ignored = false ∧ ((11 : Nat), "c") = (sp.first_line, sp.name) :=
  ⟨by decide,
    excluded_never_reported c1ResolveFrom c1ReadText c7Mloc [0] [1] 1
      [((11 : Nat), "c")] ((11 : Nat), "c") (by decide) (by decide)⟩

/-- C8 witness: the amended round-trip property at the two paths of the
module's own doctest, with trailing artifact text after the header. -/
theorem dml_sources_from_body_roundtrip_witness :
    (∀ p ∈ ["/a/b.dml", "/c/d.dml"], ∀ c ∈ p.data, isLineBreak c = false) ∧
    dml_sources_from_body (dmlcHeader ["/a/b.dml", "/c/d.dml"] ++ "\nblah blah") =
      some ["/a/b.dml", "/c/d.dml"] :=
  ⟨by decide, dml_sources_from_body_roundtrip ["/a/b.dml", "/c/d.dml"] "\nblah blah"
    (by decide)⟩

/-- C9: determinism.  The result of `find_dead_methods` does not depend
on the iteration order of the artifact set: artifact lists that are
permutations of each other (the same set) yield identical output, because
artifacts are processed in sorted order, marker accumulation only merges,
and each file's spans are swept in the fixed tuple order. -/
theorem find_dead_methods_deterministic (resolveFrom : Path → String → Path)
    (readText : Path → String) (mloc : Path → List MethodSpan)
    (cf1 cf2 d : List Path) (hperm : cf1.Perm cf2) :
    find_dead_methods resolveFrom readText mloc cf1 d =
      find_dead_methods resolveFrom readText mloc cf2 d := by
  unfold find_dead_methods linemarks_by_path
  rw [sortPaths_eq_of_perm hperm]

/-- C9 witness: two artifact orders of the same two-artifact set give the
same result. -/
theorem find_dead_methods_deterministic_witness :
    ([0, 1] : List Nat).Perm [1, 0] ∧
    find_dead_methods c1ResolveFrom c1ReadText c1Mloc [0, 1] [1] =
      find_dead_methods c1ResolveFrom c1ReadText c1Mloc [1, 0] [1] :=
  ⟨by decide,
    find_dead_methods_deterministic c1ResolveFrom c1ReadText c1Mloc [0, 1] [1, 0] [1]
      (by decide)⟩

/-- C10: shape of the dead mapping.  A file that is a key of the marker
mapping appears as a key of the dead mapping only with a non-empty list
(the sweep branch never creates an empty entry), while every requested
file with zero markers unconditionally gets an entry — which is the
(possibly empty) list of its non-excluded spans' pairs. -/
theorem dead_mapping_shape (resolveFrom : Path → String → Path)
    (readText : Path → String) (mloc : Path → List MethodSpan)
    (c_files d : List Path) (hnd : d.Nodup) :
    (∀ p L, p ∈ (linemarks_by_path resolveFrom readText c_files).map Prod.fst →
      getEntry p (find_dead_methods resolveFrom readText mloc c_files d).1 = some L →
      L ≠ []) ∧
    (∀ p, p ∈ d → p ∉ (linemarks_by_path resolveFrom readText c_files).map Prod.fst →
      getEntry p (find_dead_methods resolveFrom readText mloc c_files d).1 =
        some (deadPairs (mloc p))) := by
  constructor
  · intro p L hkey hent
    have hmem := getEntry_mem hent
    simp only [find_dead_methods] at hmem
    rcases List.mem_append.mp hmem with hmem | hmem
    · obtain ⟨-, -, -, -, hne⟩ := correlate_dead_entry hmem
      exact hne
    · obtain ⟨-, hnk, -⟩ := zeroDead_entry_mem hmem
      exact absurd hkey hnk
  · intro p hp hab
    exact getEntry_find_of_no_marks resolveFrom readText mloc c_files d p hnd hp hab

/-- C10 witness: the two branch shapes at a concrete no-marker artifact
with the requested file 1. -/
theorem dead_mapping_shape_witness :
    ([1] : List Nat).Nodup ∧
    ((∀ p L, p ∈ (linemarks_by_path c1ResolveFrom c4ReadText [0]).map Prod.fst →
        getEntry p (find_dead_methods c1ResolveFrom c4ReadText c4Mloc [0] [1]).1 =
          some L → L ≠ []) ∧
      (∀ p, p ∈ ([1] : List Nat) →
        p ∉ (linemarks_by_path c1ResolveFrom c4ReadText [0]).map Prod.fst →
        getEntry p (find_dead_methods c1ResolveFrom c4ReadText c4Mloc [0] [1]).1 =
          some (deadPairs (c4Mloc p)))) :=
  ⟨by decide, dead_mapping_shape c1ResolveFrom c4ReadText c4Mloc [0] [1] (by decide)⟩

end DeadDML
